import Mathlib

/-!
# Verification of the Microstock Prompt Generator backend

A shallow embedding, in Lean 4, of the generation pipeline of
`backend/server.py` (the `generate_prompts` route and its helpers):
credential resolution, prompt templating, provider dispatch, the
tolerant response normalizer, and the generation-record builder.

Strings are modelled as Lean `String` / `List Char` (Python `str` is a
sequence of Unicode code points; a Lean `Char` is a Unicode scalar value,
so unpaired surrogates — which no claim in this development touches —
are not representable and the JSON-string parser rejects a lone
surrogate escape where Python would keep it).  `json.loads` is embedded
as an executable recursive-descent parser over `List Char`, faithful to
Python's strict JSON scanner (including the `NaN` / `Infinity` /
`-Infinity` extensions Python accepts by default); numeric literals are
kept as their lexemes, since the pipeline never inspects a number's
value.  Effects are made explicit: the environment (the shared
`EMERGENT_LLM_KEY`), the provider call, the freshly drawn record id and
the current UTC time are parameters of the pipeline function.
-/

namespace PG

/-! ## Python string primitives

Executable models of the `str` operations `generate_prompts` uses:
`find` (two- and three-argument forms), slicing with a possibly negative
end index, `strip`, `lstrip` with an explicit character set, and
`split('\n')`. -/

/-- Characters Python's `str.strip()` removes: exactly the code points for
which `str.isspace()` holds. -/
def isPyWs (c : Char) : Bool :=
  c = ' ' || c = '\t' || c = '\n' || c = '\r' || c = '\x0b' || c = '\x0c'
    || ('\x1c' ≤ c && c ≤ '\x1f') || c = '\x85' || c = '\xa0' || c = ' '
    || (' ' ≤ c && c ≤ ' ') || c = ' ' || c = ' '
    || c = ' ' || c = ' ' || c = '　'

/-- Python `s.strip()`: drop leading and trailing whitespace. -/
def pyStrip (cs : List Char) : List Char :=
  ((cs.dropWhile isPyWs).reverse.dropWhile isPyWs).reverse

/-- Index of the first occurrence of `sub` in `hay` (Python `find` with
`start = 0`), `none` when absent where Python returns `-1`. -/
def firstOccur (sub : List Char) : List Char → Option Nat
  | [] => if sub.isEmpty then some 0 else none
  | c :: t =>
    if sub.isPrefixOf (c :: t) then some 0 else (firstOccur sub t).map (· + 1)

/-- Python `hay.find(sub, start)` for a non-empty `sub`: the least absolute
index `≥ start` at which `sub` occurs. -/
def pyFindFrom (hay sub : List Char) (start : Nat) : Option Nat :=
  (firstOccur sub (hay.drop start)).map (· + start)

/-- Python slice `cs[a:b]` where `b` may be negative (the code slices with
`json_end = -1` when no closing fence exists). -/
def pySlice (cs : List Char) (a : Nat) (b : Int) : List Char :=
  (cs.take (if b < 0 then ((cs.length : Int) + b).toNat else min b.toNat cs.length)).drop a

/-- Python `s.split('\n')`: split at every newline, keeping empty pieces. -/
def splitLines : List Char → List (List Char)
  | [] => [[]]
  | c :: t =>
    if c = '\n' then [] :: splitLines t
    else
      match splitLines t with
      | l :: ls => (c :: l) :: ls
      | [] => [[c]]

/-- The character set of the fallback's `lstrip('0123456789.-) ')`. -/
def digitPrefixChar (c : Char) : Bool :=
  c.isDigit || c = '.' || c = '-' || c = ')' || c = ' '

/-! ## JSON values and the embedded `json.loads` -/

/-- A decoded JSON value.  A numeric literal is kept as its lexeme
(`num "1.5"`), since `generate_prompts` never inspects a number's value,
only the shape of the decoded result. -/
inductive Json where
  | null : Json
  | bool (b : Bool) : Json
  | num (lit : String) : Json
  | str (s : String) : Json
  | arr (elems : List Json) : Json
  | obj (fields : List (String × Json)) : Json
deriving Repr

mutual

/-- Decidable equality on `Json`, written as a plain mutual recursion (the
nesting through `List` rules out the deriving handler) so that it reduces
inside the kernel and concrete goals close by `decide`. -/
def decEqJson : (a b : Json) → Decidable (a = b)
  | .null, .null => isTrue rfl
  | .bool x, .bool y =>
    match decEq x y with
    | isTrue h => isTrue (h ▸ rfl)
    | isFalse h => isFalse (fun e => h (by injection e))
  | .num x, .num y =>
    match decEq x y with
    | isTrue h => isTrue (h ▸ rfl)
    | isFalse h => isFalse (fun e => h (by injection e))
  | .str x, .str y =>
    match decEq x y with
    | isTrue h => isTrue (h ▸ rfl)
    | isFalse h => isFalse (fun e => h (by injection e))
  | .arr xs, .arr ys =>
    match decEqJsonList xs ys with
    | isTrue h => isTrue (h ▸ rfl)
    | isFalse h => isFalse (fun e => h (by injection e))
  | .obj fs, .obj gs =>
    match decEqJsonFields fs gs with
    | isTrue h => isTrue (h ▸ rfl)
    | isFalse h => isFalse (fun e => h (by injection e))
  | .null, .bool _ | .null, .num _ | .null, .str _ | .null, .arr _ | .null, .obj _
  | .bool _, .null | .bool _, .num _ | .bool _, .str _ | .bool _, .arr _ | .bool _, .obj _
  | .num _, .null | .num _, .bool _ | .num _, .str _ | .num _, .arr _ | .num _, .obj _
  | .str _, .null | .str _, .bool _ | .str _, .num _ | .str _, .arr _ | .str _, .obj _
  | .arr _, .null | .arr _, .bool _ | .arr _, .num _ | .arr _, .str _ | .arr _, .obj _
  | .obj _, .null | .obj _, .bool _ | .obj _, .num _ | .obj _, .str _ | .obj _, .arr _ =>
    isFalse (fun e => nomatch e)

/-- Decidable equality on lists of `Json` values. -/
def decEqJsonList : (xs ys : List Json) → Decidable (xs = ys)
  | [], [] => isTrue rfl
  | x :: xs, y :: ys =>
    match decEqJson x y, decEqJsonList xs ys with
    | isTrue h1, isTrue h2 => isTrue (h1 ▸ h2 ▸ rfl)
    | isFalse h1, _ => isFalse (fun e => h1 (by injection e))
    | _, isFalse h2 => isFalse (fun e => h2 (by injection e))
  | [], _ :: _ => isFalse (fun e => nomatch e)
  | _ :: _, [] => isFalse (fun e => nomatch e)

/-- Decidable equality on object field lists. -/
def decEqJsonFields : (fs gs : List (String × Json)) → Decidable (fs = gs)
  | [], [] => isTrue rfl
  | (k, v) :: fs, (k', v') :: gs =>
    match decEq k k', decEqJson v v', decEqJsonFields fs gs with
    | isTrue h1, isTrue h2, isTrue h3 => isTrue (h1 ▸ h2 ▸ h3 ▸ rfl)
    | isFalse h1, _, _ =>
      isFalse (fun e => h1 (by cases e; rfl))
    | _, isFalse h2, _ =>
      isFalse (fun e => h2 (by cases e; rfl))
    | _, _, isFalse h3 => isFalse (fun e => h3 (by injection e))
  | [], _ :: _ => isFalse (fun e => nomatch e)
  | _ :: _, [] => isFalse (fun e => nomatch e)

end

instance : DecidableEq Json := decEqJson

instance {ε α : Type} [DecidableEq ε] [DecidableEq α] : DecidableEq (Except ε α)
  | .ok x, .ok y =>
    match decEq x y with
    | isTrue h => isTrue (h ▸ rfl)
    | isFalse h => isFalse (fun e => h (by injection e))
  | .error x, .error y =>
    match decEq x y with
    | isTrue h => isTrue (h ▸ rfl)
    | isFalse h => isFalse (fun e => h (by injection e))
  | .ok _, .error _ => isFalse (fun e => nomatch e)
  | .error _, .ok _ => isFalse (fun e => nomatch e)

/-- JSON insignificant whitespace (what Python's scanner skips between
tokens): space, tab, newline, carriage return. -/
def jsonWs (c : Char) : Bool :=
  c = ' ' || c = '\t' || c = '\n' || c = '\r'

/-- Skip insignificant JSON whitespace. -/
def skipWs (cs : List Char) : List Char := cs.dropWhile jsonWs

/-- Value of a hexadecimal digit character. -/
def hexDigitVal (c : Char) : Option Nat :=
  if '0' ≤ c ∧ c ≤ '9' then some (c.toNat - '0'.toNat)
  else if 'a' ≤ c ∧ c ≤ 'f' then some (c.toNat - 'a'.toNat + 10)
  else if 'A' ≤ c ∧ c ≤ 'F' then some (c.toNat - 'A'.toNat + 10)
  else none

/-- The single-character JSON string escapes. -/
def escapeChar (c : Char) : Option Char :=
  if c = '"' then some '"'
  else if c = '\\' then some '\\'
  else if c = '/' then some '/'
  else if c = 'b' then some '\x08'
  else if c = 'f' then some '\x0c'
  else if c = 'n' then some '\n'
  else if c = 'r' then some '\r'
  else if c = 't' then some '\t'
  else none

def isHighSurrogate (n : Nat) : Bool := 0xD800 ≤ n && n ≤ 0xDBFF

def isLowSurrogate (n : Nat) : Bool := 0xDC00 ≤ n && n ≤ 0xDFFF

/-- Parse the body of a JSON string literal, the opening quote already
consumed; returns the decoded characters and the input past the closing
quote.  Strict mode as in `json.loads`: a raw control character is
rejected.  A surrogate-pair escape is combined; a lone surrogate escape is
rejected (see the module comment). -/
def parseStringBody : Nat → List Char → Option (List Char × List Char)
  | 0, _ => none
  | fuel + 1, cs =>
    match cs with
    | [] => none
    | c :: rest =>
      if c = '"' then some ([], rest)
      else if c = '\\' then
        match rest with
        | [] => none
        | e :: rest2 =>
          if e = 'u' then
            match rest2 with
            | a :: b :: c2 :: d :: rest3 =>
              match hexDigitVal a, hexDigitVal b, hexDigitVal c2, hexDigitVal d with
              | some va, some vb, some vc, some vd =>
                let n := ((va * 16 + vb) * 16 + vc) * 16 + vd
                if isHighSurrogate n then
                  match rest3 with
                  | s1 :: s2 :: e2 :: f2 :: g2 :: h2 :: rest4 =>
                    if s1 = '\\' ∧ s2 = 'u' then
                      match hexDigitVal e2, hexDigitVal f2, hexDigitVal g2, hexDigitVal h2 with
                      | some ve, some vf, some vg, some vh =>
                        let m := ((ve * 16 + vf) * 16 + vg) * 16 + vh
                        if isLowSurrogate m then
                          (parseStringBody fuel rest4).map
                            (fun p =>
                              (Char.ofNat (0x10000 + (n - 0xD800) * 0x400 + (m - 0xDC00)) :: p.1,
                                p.2))
                        else none
                      | _, _, _, _ => none
                    else none
                  | _ => none
                else if isLowSurrogate n then none
                else (parseStringBody fuel rest3).map (fun p => (Char.ofNat n :: p.1, p.2))
              | _, _, _, _ => none
            | _ => none
          else
            match escapeChar e with
            | some ch => (parseStringBody fuel rest2).map (fun p => (ch :: p.1, p.2))
            | none => none
      else if c.toNat < 0x20 then none
      else (parseStringBody fuel rest).map (fun p => (c :: p.1, p.2))

/-- Lex the integer part of a JSON number: `0` or a nonzero digit followed
by digits. -/
def lexIntPart : List Char → Option (List Char × List Char)
  | [] => none
  | c :: rest =>
    if c = '0' then some (['0'], rest)
    else if c.isDigit then
      some (c :: rest.takeWhile Char.isDigit, rest.dropWhile Char.isDigit)
    else none

/-- Lex an optional fraction part `.digits`; on no match, consume nothing. -/
def lexFrac (cs : List Char) : List Char × List Char :=
  match cs with
  | c :: r =>
    if c = '.' then
      match r.takeWhile Char.isDigit with
      | [] => ([], cs)
      | d => ('.' :: d, r.dropWhile Char.isDigit)
    else ([], cs)
  | [] => ([], cs)

/-- Lex an optional exponent part `[eE][+-]?digits`; on no match, consume
nothing. -/
def lexExp (cs : List Char) : List Char × List Char :=
  match cs with
  | c :: r =>
    if c = 'e' ∨ c = 'E' then
      match r with
      | s :: r2 =>
        if s = '+' ∨ s = '-' then
          match r2.takeWhile Char.isDigit with
          | [] => ([], cs)
          | d => (c :: s :: d, r2.dropWhile Char.isDigit)
        else
          match r.takeWhile Char.isDigit with
          | [] => ([], cs)
          | d => (c :: d, r.dropWhile Char.isDigit)
      | [] => ([], cs)
    else ([], cs)
  | [] => ([], cs)

/-- Lex a JSON number, Python's `NUMBER_RE`: `-?(0|[1-9]\d*)(\.\d+)?([eE][-+]?\d+)?`.
Returns the lexeme and the rest. -/
def lexNumber (cs : List Char) : Option (List Char × List Char) :=
  match cs with
  | c :: r =>
    if c = '-' then
      match lexIntPart r with
      | some (ip, r2) =>
        let fr := lexFrac r2
        let ex := lexExp fr.2
        some ('-' :: ip ++ fr.1 ++ ex.1, ex.2)
      | none => none
    else
      match lexIntPart cs with
      | some (ip, r2) =>
        let fr := lexFrac r2
        let ex := lexExp fr.2
        some (ip ++ fr.1 ++ ex.1, ex.2)
      | none => none
  | [] => none

mutual

/-- Parse one JSON value at the head of `cs` (no leading whitespace),
mirroring Python's scanner: string, object, array, the three keyword
literals, a number, or one of the non-standard constants `NaN`,
`Infinity`, `-Infinity` that `json.loads` accepts by default.  `fuel`
only bounds the recursion; `parseJsonChars` supplies enough for any
input. -/
def parseValue : Nat → List Char → Option (Json × List Char)
  | 0, _ => none
  | fuel + 1, cs =>
    match cs with
    | [] => none
    | c :: rest =>
      if c = '"' then
        (parseStringBody (rest.length + 1) rest).map (fun p => (Json.str (String.mk p.1), p.2))
      else if c = '{' then
        match skipWs rest with
        | [] => none
        | c2 :: rest2 =>
          if c2 = '}' then some (Json.obj [], rest2)
          else (parseMembers fuel (c2 :: rest2)).map (fun p => (Json.obj p.1, p.2))
      else if c = '[' then
        match skipWs rest with
        | [] => none
        | c2 :: rest2 =>
          if c2 = ']' then some (Json.arr [], rest2)
          else (parseElems fuel (c2 :: rest2)).map (fun p => (Json.arr p.1, p.2))
      else if "null".data.isPrefixOf cs then some (Json.null, cs.drop 4)
      else if "true".data.isPrefixOf cs then some (Json.bool true, cs.drop 4)
      else if "false".data.isPrefixOf cs then some (Json.bool false, cs.drop 5)
      else
        match lexNumber cs with
        | some (lit, rest2) => some (Json.num (String.mk lit), rest2)
        | none =>
          if "NaN".data.isPrefixOf cs then some (Json.num "NaN", cs.drop 3)
          else if "Infinity".data.isPrefixOf cs then some (Json.num "Infinity", cs.drop 8)
          else if "-Infinity".data.isPrefixOf cs then some (Json.num "-Infinity", cs.drop 9)
          else none

/-- Parse a non-empty comma-separated list of array elements, the closing
bracket included. -/
def parseElems : Nat → List Char → Option (List Json × List Char)
  | 0, _ => none
  | fuel + 1, cs =>
    match parseValue fuel cs with
    | none => none
    | some (v, rest) =>
      match skipWs rest with
      | [] => none
      | c :: rest2 =>
        if c = ',' then (parseElems fuel (skipWs rest2)).map (fun p => (v :: p.1, p.2))
        else if c = ']' then some ([v], rest2)
        else none

/-- Parse a non-empty comma-separated list of object members, the closing
brace included. -/
def parseMembers : Nat → List Char → Option (List (String × Json) × List Char)
  | 0, _ => none
  | fuel + 1, cs =>
    match cs with
    | [] => none
    | c :: rest =>
      if c = '"' then
        match parseStringBody (rest.length + 1) rest with
        | none => none
        | some (key, rest2) =>
          match skipWs rest2 with
          | [] => none
          | c2 :: rest3 =>
            if c2 = ':' then
              match parseValue fuel (skipWs rest3) with
              | none => none
              | some (v, rest4) =>
                match skipWs rest4 with
                | [] => none
                | c3 :: rest5 =>
                  if c3 = ',' then
                    (parseMembers fuel (skipWs rest5)).map
                      (fun p => ((String.mk key, v) :: p.1, p.2))
                  else if c3 = '}' then some ([(String.mk key, v)], rest5)
                  else none
            else none
      else none

end

/-- The embedded `json.loads` over a character list: skip leading
whitespace, parse one value, require only whitespace after it
(Python's "Extra data" check). -/
def parseJsonChars (cs : List Char) : Option Json :=
  let cs2 := skipWs cs
  match parseValue (2 * cs2.length + 2) cs2 with
  | some (v, rest) => if skipWs rest = [] then some v else none
  | none => none

/-- The embedded `json.loads` over a string. -/
def parseJson (s : String) : Option Json := parseJsonChars s.data

/-! ## The response normalizer (`server.py` lines 170–190) -/

/-- The markdown-fence extraction of lines 172–180: if `` ```json ``
occurs, take from just past the first occurrence up to the next `` ``` ``
(slice end `-1` when there is none) and strip; else the same for a bare
`` ``` ``; else the text unchanged. -/
def extractCandidate (cs : List Char) : List Char :=
  match firstOccur "```json".data cs with
  | some i =>
    let jsonStart := i + 7
    match pyFindFrom cs "```".data jsonStart with
    | some jsonEnd => pyStrip (pySlice cs jsonStart (jsonEnd : Int))
    | none => pyStrip (pySlice cs jsonStart (-1))
  | none =>
    match firstOccur "```".data cs with
    | some i =>
      let jsonStart := i + 3
      match pyFindFrom cs "```".data jsonStart with
      | some jsonEnd => pyStrip (pySlice cs jsonStart (jsonEnd : Int))
      | none => pyStrip (pySlice cs jsonStart (-1))
    | none => cs

/-- The except-branch fallback of lines 188–190: split into lines, strip
each, drop the blank ones, then strip from each survivor a leading run of
characters from `'0123456789.-) '` (the second comprehension's `if p`
filter is kept even though every element is already non-empty). -/
def fallbackLines (cs : List Char) : List (List Char) :=
  let ls := ((splitLines cs).map pyStrip).filter (fun l => !l.isEmpty)
  (ls.filter (fun l => !l.isEmpty)).map (fun l => l.dropWhile digitPrefixChar)

/-- The fallback of lines 188–190 as a prompt list: each cleaned line
becomes one (string) prompt. -/
def fallbackNormalize (cs : List Char) : List Json :=
  (fallbackLines cs).map (fun l => Json.str (String.mk l))

/-- The whole response normalizer (lines 170–190): extract the fenced
candidate, decode it, accept the decoded value only when it is a list;
on decode failure or a non-list value, fall back to the line split of the
candidate (the code reassigned `response_text`, so the fallback sees the
extracted candidate, not the original raw text). -/
def normalizeResponse (t : String) : List Json :=
  let cand := extractCandidate t.data
  match parseJsonChars cand with
  | some (Json.arr xs) => xs
  | _ => fallbackNormalize cand

/-- True exactly when the decode step fails on the extracted candidate —
no JSON parse, or a parse whose value is not a list — i.e. when line 182
or the line 184–185 check raises and control reaches the except branch. -/
def decodeFails (t : String) : Bool :=
  match parseJsonChars (extractCandidate t.data) with
  | some (Json.arr _) => false
  | _ => true

/-! ## The generation pipeline (`server.py` lines 34–55, 121–208) -/

/-- The `style` literal of `GeneratePromptRequest`: pydantic rejects any
other value at the boundary. -/
inductive Style where
  | photo | illustration | vector | logo
deriving DecidableEq, Repr

/-- The `provider` literal of `GeneratePromptRequest`. -/
inductive Provider where
  | openai | claude | gemini | groq
deriving DecidableEq, Repr

/-- The `output_format` literal of `GeneratePromptRequest`. -/
inductive OutputFormat where
  | json | text
deriving DecidableEq, Repr

/-- The request body of `POST /api/generate` (`GeneratePromptRequest`).
`quantity` is a Python `int`, hence `Int`; `api_key` is `Optional[str]`
defaulting to `None`. -/
structure GeneratePromptRequest where
  keyword : String
  style : Style
  provider : Provider
  model : String
  quantity : Int
  output_format : OutputFormat
  api_key : Option String := none
  use_emergent_key : Bool := false
deriving DecidableEq, Repr

/-- The literal value a `style` carries, as interpolated into
`f"... suitable for {request.style} style"`. -/
def styleLiteral : Style → String
  | .photo => "photo"
  | .illustration => "illustration"
  | .vector => "vector"
  | .logo => "logo"

/-- The literal value a `provider` carries. -/
def providerLiteral : Provider → String
  | .openai => "openai"
  | .claude => "claude"
  | .gemini => "gemini"
  | .groq => "groq"

/-- The record `generate_prompts` builds, persists and returns
(`PromptGeneration`).  `id` and `created_at` are server-generated per
call (`uuid4` and `datetime.now(timezone.utc)`); both enter the pipeline
here as explicit parameters.  `prompts` holds what the normalizer
produced — the code assigns the decoded JSON list as is, so an element
need not be a string. -/
structure PromptGeneration where
  id : String
  keyword : String
  style : Style
  provider : Provider
  model : String
  quantity : Int
  prompts : List Json
  output_format : OutputFormat
  created_at : Nat
deriving DecidableEq, Repr

/-- An error response raised through `HTTPException(status_code, detail)`. -/
structure HttpError where
  status : Nat
  detail : String
deriving DecidableEq, Repr

/-- An HTTP status in the 4xx range — what "surfaced as a client error"
denotes. -/
def isClientError (status : Nat) : Prop := 400 ≤ status ∧ status < 500

instance : DecidablePred isClientError :=
  fun s => inferInstanceAs (Decidable (400 ≤ s ∧ s < 500))

/-- Python truthiness of an optional string: `None` and `""` are falsy. -/
def pyTruthy : Option String → Bool
  | none => false
  | some s => s ≠ ""

/-- The credential resolution of lines 124–132: with
`use_emergent_key`, the shared `EMERGENT_LLM_KEY` must be set and
non-empty or the request fails with status 500; otherwise a truthy
caller-supplied `api_key` is used, and its absence fails with
status 400. -/
def resolveApiKey (useEmergentKey : Bool) (envKey requestKey : Option String) :
    Except HttpError String :=
  if useEmergentKey then
    match envKey with
    | some k => if k = "" then .error ⟨500, "Emergent LLM key not configured"⟩ else .ok k
    | none => .error ⟨500, "Emergent LLM key not configured"⟩
  else
    match requestKey with
    | some k => if k = "" then .error ⟨400, "API key required"⟩ else .ok k
    | none => .error ⟨400, "API key required"⟩

/-- The `style_descriptions` lookup of lines 135–140. -/
def styleDescriptions : Style → String
  | .photo => "realistic photography"
  | .illustration => "digital illustration or artwork"
  | .vector => "vector graphics with clean lines and shapes"
  | .logo => "logo design with branding elements"

/-- The `generation_prompt` f-string of lines 142–151, rendered from
keyword, style and quantity alone. -/
def generationPrompt (keyword : String) (style : Style) (quantity : Int) : String :=
  "Generate " ++ toString quantity ++ " unique, detailed prompts for "
    ++ styleDescriptions style ++ " based on the keyword: \"" ++ keyword ++ "\"\n\n"
    ++ "Each prompt should:\n"
    ++ "- Be descriptive and specific\n"
    ++ "- Include relevant keywords for microstock discoverability\n"
    ++ "- Mention composition, lighting, mood, and technical aspects\n"
    ++ "- Be optimized for search engines\n"
    ++ "- Be suitable for " ++ styleLiteral style ++ " style\n\n"
    ++ "Format: Return ONLY a JSON array of strings, nothing else. "
    ++ "Example: [\"prompt 1\", \"prompt 2\", ...]"

/-- The two provider invocation paths, as oracles: `emergent` models
`generate_with_emergent_integrations(provider, model, api_key, prompt)`
(OpenAI, Claude, Gemini share it) and `groq` models
`generate_with_groq(api_key, model, prompt)`.  Each returns the raw
response text, or the `HTTPException` its except-branch raises. -/
structure ProviderStub where
  emergent : Provider → String → String → String → Except HttpError String
  groq : String → String → String → Except HttpError String

/-- The instruction string the pipeline renders for a request — the value
bound to `generation_prompt` at line 142, a function of keyword, style and
quantity only. -/
def pipelineInstruction (req : GeneratePromptRequest) : String :=
  generationPrompt req.keyword req.style req.quantity

/-- The provider dispatch of lines 153–168: OpenAI, Claude and Gemini go
through the shared `generate_with_emergent_integrations` path, Groq
through `generate_with_groq`; both receive the same rendered
instruction.  The `else` branch raising "Invalid provider" is
unreachable, since pydantic's `Literal` admits only these four values. -/
def providerCall (stub : ProviderStub) (req : GeneratePromptRequest) (apiKey : String) :
    Except HttpError String :=
  match req.provider with
  | .openai | .claude | .gemini =>
    stub.emergent req.provider req.model apiKey (pipelineInstruction req)
  | .groq => stub.groq apiKey req.model (pipelineInstruction req)

/-- The `generate_prompts` pipeline (lines 122–208) with its effects made
explicit: `envKey` is `os.environ.get('EMERGENT_LLM_KEY')`, `stub` the
provider back ends, `freshId` the `uuid4` drawn for this call and `now`
the UTC timestamp.  Resolve the credential, render the instruction,
dispatch on the provider (the `else` raising "Invalid provider" is
unreachable: pydantic's `Literal` admits only the four variants),
normalize the response, and assemble the record.  The database insert is
fire-and-forget and does not affect the returned value. -/
def generatePrompts (envKey : Option String) (req : GeneratePromptRequest)
    (stub : ProviderStub) (freshId : String) (now : Nat) :
    Except HttpError PromptGeneration :=
  match resolveApiKey req.use_emergent_key envKey req.api_key with
  | .error e => .error e
  | .ok apiKey =>
    match providerCall stub req apiKey with
    | .error e => .error e
    | .ok text =>
      .ok { id := freshId
            keyword := req.keyword
            style := req.style
            provider := req.provider
            model := req.model
            quantity := req.quantity
            prompts := normalizeResponse text
            output_format := req.output_format
            created_at := now }

/-! ## A JSON encoder, for the round-trip property

The round-trip claim speaks of "encoding a list of N distinct strings as
a JSON array inside a ```json fenced block"; the encoder below is a
standard strict-JSON writer: it escapes the quote, the backslash and
every control character (the latter as `\u00XX`), and leaves all other
code points literal. -/

/-- The lower-case hexadecimal digit for `n < 16`. -/
def hexDigitChar (n : Nat) : Char :=
  if n < 10 then Char.ofNat ('0'.toNat + n) else Char.ofNat ('a'.toNat + (n - 10))

/-- Encode one character of a JSON string literal. -/
def encodeJsonChar (c : Char) : List Char :=
  if c = '"' then ['\\', '"']
  else if c = '\\' then ['\\', '\\']
  else if c.toNat < 0x20 then
    ['\\', 'u', '0', '0', hexDigitChar (c.toNat / 16), hexDigitChar (c.toNat % 16)]
  else [c]

/-- Encode a JSON string literal, quotes included. -/
def encodeJsonString (s : String) : List Char :=
  '"' :: (s.data.flatMap encodeJsonChar ++ ['"'])

/-- Join pieces with the `", "` separator (as `json.dumps` writes arrays). -/
def commaSep : List (List Char) → List Char
  | [] => []
  | [x] => x
  | x :: xs => x ++ ',' :: ' ' :: commaSep xs

/-- Encode a list of strings as a JSON array. -/
def encodeJsonArray (l : List String) : List Char :=
  '[' :: (commaSep (l.map encodeJsonString) ++ [']'])

/-- The encoded array wrapped in a ```json fenced block, the shape the
instruction asks the model for and the spec's round-trip property feeds
to the normalizer. -/
def fencedJsonBlock (l : List String) : String :=
  ⟨"```json\n".data ++ (encodeJsonArray l ++ "\n```".data)⟩

/-- `runFree k cs = true` iff no three consecutive backticks occur in
`cs` when a run of `k` backticks immediately precedes it; `runFree 0 cs`
says `cs` is free of the closing-fence marker `` ``` ``. -/
def runFree (k : Nat) : List Char → Bool
  | [] => true
  | c :: t => if c = '`' then (if 3 ≤ k + 1 then false else runFree (k + 1) t) else runFree 0 t

/-- The length of the backtick run a list ends in, continuing an incoming
run of `k`. -/
def endRun (k : Nat) : List Char → Nat
  | [] => k
  | c :: t => if c = '`' then endRun (k + 1) t else endRun 0 t

/-! # Theorems

First a handful of shared lemmas about the normalizer's two branches,
then one theorem per claim of the specification. -/

/-- When the extracted candidate decodes to a JSON list, the normalizer
returns exactly that list. -/
theorem normalize_of_parse_arr {t : String} {xs : List Json}
    (h : parseJsonChars (extractCandidate t.data) = some (Json.arr xs)) :
    normalizeResponse t = xs := by
  simp [normalizeResponse, h]

/-- When the decode step fails, the normalizer is the line-split fallback
applied to the extracted candidate. -/
theorem normalize_of_decodeFails {t : String} (h : decodeFails t = true) :
    normalizeResponse t = fallbackNormalize (extractCandidate t.data) := by
  unfold decodeFails at h
  cases hp : parseJsonChars (extractCandidate t.data) with
  | none => simp [normalizeResponse, hp]
  | some v =>
    cases v with
    | null => simp [normalizeResponse, hp]
    | bool b => simp [normalizeResponse, hp]
    | num n => simp [normalizeResponse, hp]
    | str s => simp [normalizeResponse, hp]
    | obj fs => simp [normalizeResponse, hp]
    | arr xs => rw [hp] at h; simp at h

/-- **C4** — Response normalization never raises: for every raw response
text it produces a prompt list, either the successfully decoded JSON list
or, on any decode failure, the line-split fallback of the working text. -/
theorem normalization_never_fails (t : String) :
    (∃ xs, parseJsonChars (extractCandidate t.data) = some (Json.arr xs)
        ∧ normalizeResponse t = xs)
    ∨ (decodeFails t = true
        ∧ normalizeResponse t = fallbackNormalize (extractCandidate t.data)) := by
  cases hp : parseJsonChars (extractCandidate t.data) with
  | none =>
    exact Or.inr ⟨by simp [decodeFails, hp], normalize_of_decodeFails (by simp [decodeFails, hp])⟩
  | some v =>
    cases v with
    | arr xs => exact Or.inl ⟨xs, rfl, normalize_of_parse_arr hp⟩
    | null =>
      exact Or.inr ⟨by simp [decodeFails, hp], normalize_of_decodeFails (by simp [decodeFails, hp])⟩
    | bool b =>
      exact Or.inr ⟨by simp [decodeFails, hp], normalize_of_decodeFails (by simp [decodeFails, hp])⟩
    | num n =>
      exact Or.inr ⟨by simp [decodeFails, hp], normalize_of_decodeFails (by simp [decodeFails, hp])⟩
    | str s =>
      exact Or.inr ⟨by simp [decodeFails, hp], normalize_of_decodeFails (by simp [decodeFails, hp])⟩
    | obj fs =>
      exact Or.inr ⟨by simp [decodeFails, hp], normalize_of_decodeFails (by simp [decodeFails, hp])⟩

/-- **C7** — When the JSON decode of the candidate succeeds but yields a
value that is not a list (an object, a bare string, ...), the normalizer
treats it as a failure and falls through to the line-split fallback
instead of returning the non-list value. -/
theorem nonlist_decode_falls_back (t : String) (v : Json)
    (hp : parseJsonChars (extractCandidate t.data) = some v)
    (hv : ∀ xs, v ≠ Json.arr xs) :
    normalizeResponse t = fallbackNormalize (extractCandidate t.data) := by
  apply normalize_of_decodeFails
  unfold decodeFails
  rw [hp]
  cases v with
  | null => rfl
  | bool b => rfl
  | num n => rfl
  | str s => rfl
  | obj fs => rfl
  | arr xs => exact absurd rfl (hv xs)

/-- Witness for C7 at the JSON object `{"a": 1}`: the decode succeeds with
a non-list, and the fallback turns the candidate into one string line. -/
theorem nonlist_decode_falls_back_witness :
    normalizeResponse "\x7b\"a\": 1\x7d"
        = fallbackNormalize (extractCandidate "\x7b\"a\": 1\x7d".data)
    ∧ normalizeResponse "\x7b\"a\": 1\x7d" = [Json.str "\x7b\"a\": 1\x7d"] :=
  ⟨nonlist_decode_falls_back _ (Json.obj [("a", Json.num "1")]) (by decide)
      (fun xs h => nomatch h),
    by decide⟩

/-- **C10** — The normalizer never checks that decoded array elements are
strings: a raw text decoding to a JSON array with non-string elements is
accepted and that array returned unchanged, not treated as a decode
failure. -/
theorem nonstring_array_elements_accepted (t : String) (xs : List Json)
    (hp : parseJsonChars (extractCandidate t.data) = some (Json.arr xs))
    (_hx : ∃ x ∈ xs, ∀ s, x ≠ Json.str s) :
    normalizeResponse t = xs :=
  normalize_of_parse_arr hp

/-- Witness for C10 at `[1, 2, null]`: the number and null elements come
back in the prompt list as they are. -/
theorem nonstring_array_elements_accepted_witness :
    normalizeResponse "[1, 2, null]" = [Json.num "1", Json.num "2", Json.null] :=
  nonstring_array_elements_accepted _ _ (by decide)
    ⟨Json.num "1", List.mem_cons_self _ _, fun s h => nomatch h⟩

/-- **C3, counterexample** — The claim that the fallback splits the
original provider response is false once a fenced block was extracted:
here the decode of the candidate `not json` fails and the normalizer
splits only that candidate, not the full raw text with its numbered
tail. -/
theorem decode_failure_fallback_not_on_raw_text :
    decodeFails "```json\nnot json\n```\n1. foo\n2) bar" = true
    ∧ normalizeResponse "```json\nnot json\n```\n1. foo\n2) bar"
        ≠ fallbackNormalize "```json\nnot json\n```\n1. foo\n2) bar".data
    ∧ normalizeResponse "```json\nnot json\n```\n1. foo\n2) bar" = [Json.str "not json"] := by
  refine ⟨by decide, by decide, by decide⟩

/-- **C3, amended** — On any decode failure the fallback splits the
current working text — the extracted fenced candidate when a fence marker
was present, otherwise the raw text — into lines, drops blank lines and
strips the leading `{digits, '.', '-', ')', space}` run from each. -/
theorem decode_failure_fallback_on_working_text (t : String)
    (h : decodeFails t = true) :
    normalizeResponse t = fallbackNormalize (extractCandidate t.data) :=
  normalize_of_decodeFails h

/-- Witness for the amended C3 at the fence-free numbered list
`1. foo\n2) bar`, which normalizes to `["foo", "bar"]`. -/
theorem decode_failure_fallback_on_working_text_witness :
    normalizeResponse "1. foo\n2) bar"
        = fallbackNormalize (extractCandidate "1. foo\n2) bar".data)
    ∧ normalizeResponse "1. foo\n2) bar" = [Json.str "foo", Json.str "bar"] :=
  ⟨decode_failure_fallback_on_working_text _ (by decide), by decide⟩

/-- **C2, counterexample** — With `use_emergent_key` and no shared key
configured, the pipeline fails before any provider call, but with HTTP
status 500: a server error, not the client error the claim asserts. -/
theorem missing_shared_key_not_client_error :
    generatePrompts none
        { keyword := "sunset beach", style := .photo, provider := .openai,
          model := "gpt-4o", quantity := 2, output_format := .json,
          api_key := none, use_emergent_key := true }
        ⟨fun _ _ _ _ => .ok "[]", fun _ _ _ => .ok "[]"⟩ "gen-1" 0
      = .error ⟨500, "Emergent LLM key not configured"⟩
    ∧ ¬ isClientError 500 := by
  refine ⟨by decide, by decide⟩

/-- **C2, amended** — With `use_emergent_key = true` and the shared
platform key unset (or empty, which Python's truthiness test treats the
same), the pipeline fails with the missing-credential error — surfaced
with HTTP status 500, a server error — and no provider is invoked: the
result does not depend on the provider back ends. -/
theorem missing_shared_key_error_before_any_provider_call
    (envKey : Option String) (req : GeneratePromptRequest)
    (stub stub' : ProviderStub) (freshId : String) (now : Nat)
    (huse : req.use_emergent_key = true) (henv : pyTruthy envKey = false) :
    generatePrompts envKey req stub freshId now
        = .error ⟨500, "Emergent LLM key not configured"⟩
    ∧ generatePrompts envKey req stub freshId now
        = generatePrompts envKey req stub' freshId now := by
  have hres : resolveApiKey req.use_emergent_key envKey req.api_key
      = .error ⟨500, "Emergent LLM key not configured"⟩ := by
    rw [huse]
    cases envKey with
    | none => rfl
    | some kk =>
      have hk : kk = "" := by simpa [pyTruthy] using henv
      subst hk; rfl
  exact ⟨by simp [generatePrompts, hres], by simp [generatePrompts, hres]⟩

/-- Witness for the amended C2: a concrete request against an absent
shared key, checked against two provider stubs that disagree everywhere. -/
theorem missing_shared_key_error_before_any_provider_call_witness :
    generatePrompts none
        { keyword := "cat", style := .logo, provider := .groq, model := "llama",
          quantity := 1, output_format := .text, api_key := some "ignored",
          use_emergent_key := true }
        ⟨fun _ _ _ _ => .ok "[\"a\"]", fun _ _ _ => .ok "[\"a\"]"⟩ "id-a" 3
      = .error ⟨500, "Emergent LLM key not configured"⟩
    ∧ generatePrompts none
        { keyword := "cat", style := .logo, provider := .groq, model := "llama",
          quantity := 1, output_format := .text, api_key := some "ignored",
          use_emergent_key := true }
        ⟨fun _ _ _ _ => .ok "[\"a\"]", fun _ _ _ => .ok "[\"a\"]"⟩ "id-a" 3
      = generatePrompts none
        { keyword := "cat", style := .logo, provider := .groq, model := "llama",
          quantity := 1, output_format := .text, api_key := some "ignored",
          use_emergent_key := true }
        ⟨fun _ _ _ _ => .error ⟨500, "boom"⟩, fun _ _ _ => .error ⟨500, "boom"⟩⟩ "id-a" 3 :=
  missing_shared_key_error_before_any_provider_call none _ _ _ "id-a" 3 rfl rfl

/-- **C5** — With `use_emergent_key = false` and an absent or empty
caller-supplied key, the pipeline fails with the missing-credential error
(`400, "API key required"`) and never invokes a provider: the result does
not depend on the provider back ends. -/
theorem missing_caller_key_error_before_any_provider_call
    (envKey : Option String) (req : GeneratePromptRequest)
    (stub stub' : ProviderStub) (freshId : String) (now : Nat)
    (huse : req.use_emergent_key = false) (hkey : pyTruthy req.api_key = false) :
    generatePrompts envKey req stub freshId now = .error ⟨400, "API key required"⟩
    ∧ generatePrompts envKey req stub freshId now
        = generatePrompts envKey req stub' freshId now := by
  have hres : resolveApiKey req.use_emergent_key envKey req.api_key
      = .error ⟨400, "API key required"⟩ := by
    rw [huse]
    cases hak : req.api_key with
    | none => rfl
    | some kk =>
      have hk : kk = "" := by
        rw [hak] at hkey
        simpa [pyTruthy] using hkey
      subst hk; rfl
  exact ⟨by simp [generatePrompts, hres], by simp [generatePrompts, hres]⟩

/-- Witness for C5: a concrete request with an empty caller key, checked
against two provider stubs that disagree everywhere. -/
theorem missing_caller_key_error_before_any_provider_call_witness :
    generatePrompts (some "shared-key")
        { keyword := "dog", style := .vector, provider := .claude, model := "c3",
          quantity := 4, output_format := .json, api_key := some "",
          use_emergent_key := false }
        ⟨fun _ _ _ _ => .ok "[\"a\"]", fun _ _ _ => .ok "[\"a\"]"⟩ "id-b" 9
      = .error ⟨400, "API key required"⟩
    ∧ generatePrompts (some "shared-key")
        { keyword := "dog", style := .vector, provider := .claude, model := "c3",
          quantity := 4, output_format := .json, api_key := some "",
          use_emergent_key := false }
        ⟨fun _ _ _ _ => .ok "[\"a\"]", fun _ _ _ => .ok "[\"a\"]"⟩ "id-b" 9
      = generatePrompts (some "shared-key")
        { keyword := "dog", style := .vector, provider := .claude, model := "c3",
          quantity := 4, output_format := .json, api_key := some "",
          use_emergent_key := false }
        ⟨fun _ _ _ _ => .error ⟨500, "boom"⟩, fun _ _ _ => .error ⟨500, "boom"⟩⟩ "id-b" 9 :=
  missing_caller_key_error_before_any_provider_call (some "shared-key") _ _ _ "id-b" 9 rfl rfl

/-- **C6** — The rendered instruction states the exact requested quantity,
maps the style through the fixed four-entry lookup, demands a bare JSON
array of strings as the only output, and is the same string no matter
which provider the request names. -/
theorem instruction_contract_provider_agnostic (k : String) (s : Style) (q : Int)
    (req : GeneratePromptRequest) (p₁ p₂ : Provider) :
    (∃ pre post : String, generationPrompt k s q = pre ++ toString q ++ post)
    ∧ styleDescriptions .photo = "realistic photography"
    ∧ styleDescriptions .illustration = "digital illustration or artwork"
    ∧ styleDescriptions .vector = "vector graphics with clean lines and shapes"
    ∧ styleDescriptions .logo = "logo design with branding elements"
    ∧ (∃ pre post : String, generationPrompt k s q = pre ++ styleDescriptions s ++ post)
    ∧ (∃ pre post : String,
        generationPrompt k s q
          = pre ++ "Return ONLY a JSON array of strings, nothing else. " ++ post)
    ∧ pipelineInstruction { req with provider := p₁ }
        = pipelineInstruction { req with provider := p₂ } := by
  refine ⟨?_, rfl, rfl, rfl, rfl, ?_, ?_, rfl⟩
  · refine ⟨"Generate ", " unique, detailed prompts for " ++ styleDescriptions s
      ++ " based on the keyword: \"" ++ k
      ++ "\"\n\nEach prompt should:\n- Be descriptive and specific\n- Include relevant keywords for microstock discoverability\n- Mention composition, lighting, mood, and technical aspects\n- Be optimized for search engines\n- Be suitable for "
      ++ styleLiteral s
      ++ " style\n\nFormat: Return ONLY a JSON array of strings, nothing else. Example: [\"prompt 1\", \"prompt 2\", ...]", ?_⟩
    simp [generationPrompt, String.append_assoc]
  · refine ⟨"Generate " ++ toString q ++ " unique, detailed prompts for ",
      " based on the keyword: \"" ++ k
      ++ "\"\n\nEach prompt should:\n- Be descriptive and specific\n- Include relevant keywords for microstock discoverability\n- Mention composition, lighting, mood, and technical aspects\n- Be optimized for search engines\n- Be suitable for "
      ++ styleLiteral s
      ++ " style\n\nFormat: Return ONLY a JSON array of strings, nothing else. Example: [\"prompt 1\", \"prompt 2\", ...]", ?_⟩
    simp [generationPrompt, String.append_assoc]
  · refine ⟨"Generate " ++ toString q ++ " unique, detailed prompts for "
      ++ styleDescriptions s ++ " based on the keyword: \"" ++ k
      ++ "\"\n\nEach prompt should:\n- Be descriptive and specific\n- Include relevant keywords for microstock discoverability\n- Mention composition, lighting, mood, and technical aspects\n- Be optimized for search engines\n- Be suitable for "
      ++ styleLiteral s ++ " style\n\nFormat: ",
      "Example: [\"prompt 1\", \"prompt 2\", ...]", ?_⟩
    simp [generationPrompt, String.append_assoc]

/-- **C8** — Running the pipeline twice with the same request against the
same (deterministic) provider back ends yields records with identical
prompt lists, while each record carries exactly the id and timestamp
freshly drawn for its own call — so distinct draws give distinct
identifiers and timestamps. -/
theorem second_generate_same_prompts_fresh_id_and_timestamp
    (envKey : Option String) (req : GeneratePromptRequest) (stub : ProviderStub)
    (id₁ id₂ : String) (now₁ now₂ : Nat) (g₁ g₂ : PromptGeneration)
    (h₁ : generatePrompts envKey req stub id₁ now₁ = .ok g₁)
    (h₂ : generatePrompts envKey req stub id₂ now₂ = .ok g₂)
    (hid : id₁ ≠ id₂) (hnow : now₁ ≠ now₂) :
    g₁.prompts = g₂.prompts
    ∧ g₁.id = id₁ ∧ g₂.id = id₂ ∧ g₁.created_at = now₁ ∧ g₂.created_at = now₂
    ∧ g₁.id ≠ g₂.id ∧ g₁.created_at ≠ g₂.created_at := by
  cases hres : resolveApiKey req.use_emergent_key envKey req.api_key with
  | error e => simp [generatePrompts, hres] at h₁
  | ok key =>
    cases hcall : providerCall stub req key with
    | error e => simp [generatePrompts, hres, hcall] at h₁
    | ok text =>
      simp only [generatePrompts, hres, hcall] at h₁ h₂
      injection h₁ with h₁
      injection h₂ with h₂
      subst h₁
      subst h₂
      exact ⟨rfl, rfl, rfl, rfl, rfl, hid, hnow⟩

/-- Witness for C8: two concrete runs differing only in the drawn id and
timestamp agree on the prompts and differ in id and timestamp. -/
theorem second_generate_same_prompts_fresh_id_and_timestamp_witness :
    (⟨"id-1", "k", .photo, .openai, "m", 3, [Json.str "p"], .json, 0⟩ :
        PromptGeneration).prompts
      = (⟨"id-2", "k", .photo, .openai, "m", 3, [Json.str "p"], .json, 1⟩ :
        PromptGeneration).prompts
    ∧ (⟨"id-1", "k", .photo, .openai, "m", 3, [Json.str "p"], .json, 0⟩ :
        PromptGeneration).id
      ≠ (⟨"id-2", "k", .photo, .openai, "m", 3, [Json.str "p"], .json, 1⟩ :
        PromptGeneration).id :=
  by
    have h := second_generate_same_prompts_fresh_id_and_timestamp
      (some "K") ⟨"k", .photo, .openai, "m", 3, .json, none, true⟩
      ⟨fun _ _ _ _ => .ok "[\"p\"]", fun _ _ _ => .ok "[]"⟩
      "id-1" "id-2" 0 1
      ⟨"id-1", "k", .photo, .openai, "m", 3, [Json.str "p"], .json, 0⟩
      ⟨"id-2", "k", .photo, .openai, "m", 3, [Json.str "p"], .json, 1⟩
      (by decide) (by decide) (by decide) (by decide)
    exact ⟨h.1, h.2.2.2.2.2.1⟩

/-- Python's `s[a:-1]` drops the final character: it is `drop a` followed
by `dropLast`. -/
theorem pySlice_neg_one (cs : List Char) (a : Nat) :
    pySlice cs a (-1) = (cs.drop a).dropLast := by
  unfold pySlice
  have he : (if (-1 : Int) < 0 then (((cs.length : Int)) + -1).toNat
      else min (-1 : Int).toNat cs.length) = cs.length - 1 := by
    simp
    omega
  rw [he, List.drop_take, List.dropLast_eq_take, List.length_drop]
  congr 1
  omega

/-- **C9** — When an opening fence marker (` ```json ` or a bare
` ``` `) has no closing ` ``` ` after it, `find` returns `-1` and the
slice `[json_start:-1]` hands the decoder everything after the opening
marker with the final character of the text silently dropped (then
whitespace-stripped, as on every extraction path); a subsequent fallback
line-split operates on that truncated candidate, not on the full raw
text. -/
theorem unclosed_fence_truncates_candidate (t : String) (i : Nat) :
    (firstOccur "```json".data t.data = some i →
      pyFindFrom t.data "```".data (i + 7) = none →
        extractCandidate t.data = pyStrip ((t.data.drop (i + 7)).dropLast)
        ∧ (decodeFails t = true →
            normalizeResponse t
              = fallbackNormalize (pyStrip ((t.data.drop (i + 7)).dropLast))))
    ∧ (firstOccur "```json".data t.data = none →
      firstOccur "```".data t.data = some i →
      pyFindFrom t.data "```".data (i + 3) = none →
        extractCandidate t.data = pyStrip ((t.data.drop (i + 3)).dropLast)
        ∧ (decodeFails t = true →
            normalizeResponse t
              = fallbackNormalize (pyStrip ((t.data.drop (i + 3)).dropLast)))) := by
  constructor
  · intro h1 h2
    have hextr : extractCandidate t.data = pyStrip ((t.data.drop (i + 7)).dropLast) := by
      simp only [extractCandidate, h1, h2, pySlice_neg_one]
    exact ⟨hextr, fun hd => by rw [normalize_of_decodeFails hd, hextr]⟩
  · intro h0 h1 h2
    have hextr : extractCandidate t.data = pyStrip ((t.data.drop (i + 3)).dropLast) := by
      simp only [extractCandidate, h0, h1, h2, pySlice_neg_one]
    exact ⟨hextr, fun hd => by rw [normalize_of_decodeFails hd, hextr]⟩

/-- Witness for C9: an unclosed ` ```json ` fence (first branch) and an
unclosed bare ` ``` ` fence whose truncated candidate loses the final
`e` before the fallback splits it (second branch). -/
theorem unclosed_fence_truncates_candidate_witness :
    extractCandidate "```json\n[\"a\"]".data
        = pyStrip (("```json\n[\"a\"]".data.drop 7).dropLast)
    ∧ normalizeResponse "x``` not here"
        = fallbackNormalize (pyStrip (("x``` not here".data.drop 4).dropLast))
    ∧ normalizeResponse "x``` not here" = [Json.str "not her"] :=
  ⟨((unclosed_fence_truncates_candidate "```json\n[\"a\"]" 0).1 (by decide) (by decide)).1,
    ((unclosed_fence_truncates_candidate "x``` not here" 1).2
      (by decide) (by decide) (by decide)).2 (by decide),
    by decide⟩

/-! ### Round trip, part 1: the string-literal parser inverts the encoder -/

/-- `hexDigitChar` writes a digit `hexDigitVal` reads back. -/
theorem hexDigitVal_hexDigitChar (n : Nat) (h : n < 16) :
    hexDigitVal (hexDigitChar n) = some n := by
  interval_cases n <;> decide

theorem isHighSurrogate_of_lt {n : Nat} (h : n < 0xD800) :
    isHighSurrogate n = false := by
  simp only [isHighSurrogate, Bool.and_eq_false_iff, decide_eq_false_iff_not]
  left
  omega

theorem isLowSurrogate_of_lt {n : Nat} (h : n < 0xDC00) :
    isLowSurrogate n = false := by
  simp only [isLowSurrogate, Bool.and_eq_false_iff, decide_eq_false_iff_not]
  left
  omega

theorem psb_quote (f : Nat) (rest : List Char) :
    parseStringBody (f + 1) ('"' :: rest) = some ([], rest) := by
  rw [parseStringBody.eq_def]; rfl

theorem psb_esc_quote (f : Nat) (rest : List Char) :
    parseStringBody (f + 1) ('\\' :: '"' :: rest)
      = (parseStringBody f rest).map (fun p => ('"' :: p.1, p.2)) := by
  rw [parseStringBody.eq_def]; rfl

theorem psb_esc_backslash (f : Nat) (rest : List Char) :
    parseStringBody (f + 1) ('\\' :: '\\' :: rest)
      = (parseStringBody f rest).map (fun p => ('\\' :: p.1, p.2)) := by
  rw [parseStringBody.eq_def]; rfl

theorem psb_literal (f : Nat) (c : Char) (rest : List Char)
    (h1 : c ≠ '"') (h2 : c ≠ '\\') (h3 : ¬ c.toNat < 0x20) :
    parseStringBody (f + 1) (c :: rest)
      = (parseStringBody f rest).map (fun p => (c :: p.1, p.2)) := by
  rw [parseStringBody.eq_def]
  simp only [if_neg h1, if_neg h2, if_neg h3]

theorem psb_unicode_00 (f : Nat) (h1 h2 : Char) (v1 v2 m : Nat) (rest : List Char)
    (hv1 : hexDigitVal h1 = some v1) (hv2 : hexDigitVal h2 = some v2)
    (hm : ((0 * 16 + 0) * 16 + v1) * 16 + v2 = m) (hlt : m < 0xD800) :
    parseStringBody (f + 1) ('\\' :: 'u' :: '0' :: '0' :: h1 :: h2 :: rest)
      = (parseStringBody f rest).map (fun p => (Char.ofNat m :: p.1, p.2)) := by
  rw [parseStringBody.eq_def]
  have hz : hexDigitVal '0' = some 0 := by decide
  simp only [hz, hv1, hv2, hm]
  simp [isHighSurrogate_of_lt hlt, isLowSurrogate_of_lt (by omega : m < 0xDC00)]

/-- Each encoded character is at least one input character. -/
theorem length_le_length_flatMap_encode (cs : List Char) :
    cs.length ≤ (cs.flatMap encodeJsonChar).length := by
  induction cs with
  | nil => simp
  | cons c cs ih =>
    have : 1 ≤ (encodeJsonChar c).length := by
      unfold encodeJsonChar
      split
      · simp
      · split
        · simp
        · split <;> simp
    simp only [List.flatMap_cons, List.length_append, List.length_cons]
    omega

/-- The string-body parser reads back exactly the characters the encoder
wrote, leaving the input after the closing quote untouched, for any fuel
of at least one step per decoded character plus the closing quote. -/
theorem parseStringBody_encode (cs : List Char) :
    ∀ (fuel : Nat) (rest : List Char), cs.length + 1 ≤ fuel →
    parseStringBody fuel (cs.flatMap encodeJsonChar ++ '"' :: rest) = some (cs, rest) := by
  induction cs with
  | nil =>
    intro fuel rest hf
    obtain ⟨f, rfl⟩ : ∃ f', fuel = f' + 1 := ⟨fuel - 1, by omega⟩
    simpa using psb_quote f rest
  | cons c cs ih =>
    intro fuel rest hf
    obtain ⟨f, rfl⟩ : ∃ f', fuel = f' + 1 := ⟨fuel - 1, by omega⟩
    have hfc : cs.length + 1 ≤ f := by
      simp only [List.length_cons] at hf
      omega
    by_cases hq : c = '"'
    · subst hq
      have hsh : (('"' :: cs).flatMap encodeJsonChar ++ '"' :: rest)
          = '\\' :: '"' :: (cs.flatMap encodeJsonChar ++ '"' :: rest) := by
        simp [encodeJsonChar]
      rw [hsh, psb_esc_quote, ih f rest hfc]
      rfl
    · by_cases hb : c = '\\'
      · subst hb
        have hsh : (('\\' :: cs).flatMap encodeJsonChar ++ '"' :: rest)
            = '\\' :: '\\' :: (cs.flatMap encodeJsonChar ++ '"' :: rest) := by
          simp [encodeJsonChar]
        rw [hsh, psb_esc_backslash, ih f rest hfc]
        rfl
      · by_cases hctl : c.toNat < 0x20
        · have hsh : ((c :: cs).flatMap encodeJsonChar ++ '"' :: rest)
              = '\\' :: 'u' :: '0' :: '0' :: hexDigitChar (c.toNat / 16)
                  :: hexDigitChar (c.toNat % 16)
                  :: (cs.flatMap encodeJsonChar ++ '"' :: rest) := by
            simp [encodeJsonChar, hq, hb, hctl]
          rw [hsh,
            psb_unicode_00 f _ _ (c.toNat / 16) (c.toNat % 16) c.toNat _
              (hexDigitVal_hexDigitChar _ (by omega))
              (hexDigitVal_hexDigitChar _ (by omega))
              (by omega) (by omega),
            ih f rest hfc]
          simp [Char.ofNat_toNat]
        · have hsh : ((c :: cs).flatMap encodeJsonChar ++ '"' :: rest)
              = c :: (cs.flatMap encodeJsonChar ++ '"' :: rest) := by
            simp [encodeJsonChar, hq, hb, hctl]
          rw [hsh, psb_literal f c _ hq hb hctl, ih f rest hfc]
          rfl

/-! ### Round trip, part 2: parsing the encoded array -/

theorem pv_quote (f : Nat) (cs : List Char) :
    parseValue (f + 1) ('"' :: cs)
      = (parseStringBody (cs.length + 1) cs).map
          (fun p => (Json.str (String.mk p.1), p.2)) := by
  rw [parseValue.eq_def]; rfl

theorem pv_lbracket (f : Nat) (cs : List Char) :
    parseValue (f + 1) ('[' :: cs)
      = (match skipWs cs with
        | [] => none
        | c2 :: rest2 =>
          if c2 = ']' then some (Json.arr [], rest2)
          else (parseElems f (c2 :: rest2)).map (fun p => (Json.arr p.1, p.2))) := by
  rw [parseValue.eq_def]; rfl

theorem pe_succ (f : Nat) (cs : List Char) :
    parseElems (f + 1) cs
      = (match parseValue f cs with
        | none => none
        | some (v, rest) =>
          match skipWs rest with
          | [] => none
          | c :: rest2 =>
            if c = ',' then (parseElems f (skipWs rest2)).map (fun p => (v :: p.1, p.2))
            else if c = ']' then some ([v], rest2)
            else none) := by
  rw [parseElems.eq_def]

theorem pjc_def (cs : List Char) :
    parseJsonChars cs
      = (match parseValue (2 * (skipWs cs).length + 2) (skipWs cs) with
        | some (v, rest) => if skipWs rest = [] then some v else none
        | none => none) := rfl

theorem skipWs_cons_of_neg (c : Char) (t : List Char) (h : jsonWs c = false) :
    skipWs (c :: t) = c :: t := by
  simp [skipWs, h]

/-- The value parser reads an encoded string literal as that string. -/
theorem parseValue_encodeString (s : String) (rest : List Char) (f : Nat) (hf : 1 ≤ f) :
    parseValue f (encodeJsonString s ++ rest) = some (Json.str s, rest) := by
  obtain ⟨f, rfl⟩ : ∃ f', f = f' + 1 := ⟨f - 1, by omega⟩
  have hsh : encodeJsonString s ++ rest
      = '"' :: (s.data.flatMap encodeJsonChar ++ '"' :: rest) := by
    simp [encodeJsonString]
  rw [hsh, pv_quote,
    parseStringBody_encode s.data _ rest
      (by
        have h1 := length_le_length_flatMap_encode s.data
        simp only [List.length_append, List.length_cons]
        omega)]
  rfl

/-- The encoded form of a non-empty string list starts with a quote. -/
theorem commaSep_encode_head (s : String) (l : List String) :
    ∃ v, commaSep ((s :: l).map encodeJsonString) = '"' :: v := by
  cases l with
  | nil => exact ⟨s.data.flatMap encodeJsonChar ++ ['"'], by simp [commaSep, encodeJsonString]⟩
  | cons s2 l2 =>
    exact ⟨(s.data.flatMap encodeJsonChar ++ ['"'])
        ++ ',' :: ' ' :: commaSep ((s2 :: l2).map encodeJsonString),
      by simp [commaSep, encodeJsonString]⟩

/-- The element parser reads the encoded, comma-separated elements back,
consuming the closing bracket. -/
theorem parseElems_encode (l : List String) :
    ∀ (f : Nat) (rest : List Char), l ≠ [] → l.length + 1 ≤ f →
    parseElems f (commaSep (l.map encodeJsonString) ++ ']' :: rest)
      = some (l.map Json.str, rest) := by
  induction l with
  | nil => intro f rest hne _; exact absurd rfl hne
  | cons s l ih =>
    intro f rest _ hf
    obtain ⟨f, rfl⟩ : ∃ f', f = f' + 1 := ⟨f - 1, by omega⟩
    cases l with
    | nil =>
      have hf1 : 1 ≤ f := by
        simp only [List.length_cons, List.length_nil] at hf
        omega
      have hsh : commaSep ([s].map encodeJsonString) ++ ']' :: rest
          = encodeJsonString s ++ ']' :: rest := by
        simp [commaSep]
      rw [hsh, pe_succ, parseValue_encodeString s _ f hf1]
      rfl
    | cons s2 l2 =>
      have hf1 : 1 ≤ f := by
        simp only [List.length_cons] at hf
        omega
      have hsh : commaSep ((s :: s2 :: l2).map encodeJsonString) ++ ']' :: rest
          = encodeJsonString s
              ++ (',' :: ' ' :: (commaSep ((s2 :: l2).map encodeJsonString) ++ ']' :: rest)) := by
        simp [commaSep, List.append_assoc]
      rw [hsh, pe_succ, parseValue_encodeString s _ f hf1]
      show (parseElems f
            (skipWs (' ' :: (commaSep ((s2 :: l2).map encodeJsonString) ++ ']' :: rest)))).map
          (fun p => (Json.str s :: p.1, p.2))
        = some ((s :: s2 :: l2).map Json.str, rest)
      obtain ⟨v, hv⟩ := commaSep_encode_head s2 l2
      have hskip : skipWs (' ' :: (commaSep ((s2 :: l2).map encodeJsonString) ++ ']' :: rest))
          = commaSep ((s2 :: l2).map encodeJsonString) ++ ']' :: rest := by
        rw [hv]
        simp [skipWs, jsonWs]
      rw [hskip, ih f rest (by simp) (by simp only [List.length_cons] at hf ⊢; omega)]
      rfl

/-- Each element costs at least one character of the encoded array. -/
theorem length_le_length_commaSep (l : List String) :
    l.length ≤ (commaSep (l.map encodeJsonString)).length + 1 := by
  induction l with
  | nil => simp
  | cons s l ih =>
    cases l with
    | nil => simp [commaSep]
    | cons s2 l2 =>
      simp only [List.map_cons, commaSep, List.length_append, List.length_cons] at ih ⊢
      omega

/-- The value parser decodes an encoded string array back to exactly the
same strings in the same order, leaving the rest of the input alone. -/
theorem parseValue_encodeArray (l : List String) (rest : List Char) (f : Nat)
    (hf : l.length + 2 ≤ f) :
    parseValue f (encodeJsonArray l ++ rest) = some (Json.arr (l.map Json.str), rest) := by
  obtain ⟨f, rfl⟩ : ∃ f', f = f' + 1 := ⟨f - 1, by omega⟩
  cases l with
  | nil =>
    have hsh : encodeJsonArray [] ++ rest = '[' :: ']' :: rest := rfl
    rw [hsh, pv_lbracket]
    rfl
  | cons s t =>
    obtain ⟨v, hv⟩ := commaSep_encode_head s t
    have hsh : encodeJsonArray (s :: t) ++ rest = '[' :: ('"' :: (v ++ ']' :: rest)) := by
      show ('[' :: (commaSep ((s :: t).map encodeJsonString) ++ [']'])) ++ rest = _
      rw [hv]
      simp
    rw [hsh, pv_lbracket]
    show (parseElems f ('"' :: (v ++ ']' :: rest))).map (fun p => (Json.arr p.1, p.2))
        = some (Json.arr ((s :: t).map Json.str), rest)
    have hback : '"' :: (v ++ ']' :: rest)
        = commaSep ((s :: t).map encodeJsonString) ++ ']' :: rest := by
      rw [hv]
      simp
    rw [hback,
      parseElems_encode (s :: t) f rest (by simp)
        (by simp only [List.length_cons] at hf ⊢; omega)]
    rfl

/-- The embedded `json.loads` decodes the encoded string array back to
exactly the same strings in the same order. -/
theorem parseJsonChars_encodeArray (l : List String) :
    parseJsonChars (encodeJsonArray l) = some (Json.arr (l.map Json.str)) := by
  rw [pjc_def]
  have hsk : skipWs (encodeJsonArray l) = encodeJsonArray l := by
    cases l with
    | nil => decide
    | cons s t => exact skipWs_cons_of_neg _ _ (by decide)
  rw [hsk]
  have hlen : l.length + 2 ≤ 2 * (encodeJsonArray l).length + 2 := by
    have h1 := length_le_length_commaSep l
    have h2 : (encodeJsonArray l).length
        = (commaSep (l.map encodeJsonString)).length + 2 := by
      show ('[' :: (commaSep (l.map encodeJsonString) ++ [']'])).length = _
      simp
    omega
  have hpv := parseValue_encodeArray l [] _ hlen
  rw [List.append_nil] at hpv
  rw [hpv]
  rfl

/-! ### Round trip, part 3: locating the closing fence

The extraction step searches for the first `` ``` `` after the opening
marker.  `runFree k cs` tracks that no backtick run reaches three; the
lemmas below show the encoder introduces no run the source strings did
not have, so the first closing marker the search can find is the real
fence. -/

theorem runFree_cons_of_neg (k : Nat) (c : Char) (t : List Char) (hc : c ≠ '`') :
    runFree k (c :: t) = runFree 0 t := by
  simp [runFree, hc]

theorem endRun_cons_of_neg (k : Nat) (c : Char) (t : List Char) (hc : c ≠ '`') :
    endRun k (c :: t) = endRun 0 t := by
  simp [endRun, hc]

theorem runFree_append (a : List Char) :
    ∀ (k : Nat) (b : List Char),
    runFree k (a ++ b) = (runFree k a && runFree (endRun k a) b) := by
  induction a with
  | nil => intro k b; simp [runFree, endRun]
  | cons c a ih =>
    intro k b
    by_cases hc : c = '`'
    · subst hc
      by_cases h3 : 3 ≤ k + 1
      · simp [runFree, endRun, h3]
      · simp [runFree, endRun, h3, ih]
    · simp [runFree, endRun, hc, ih]

theorem runFree_of_no_tick (w : List Char) (hw : ∀ c ∈ w, c ≠ '`') (k : Nat) :
    runFree k w = true := by
  induction w generalizing k with
  | nil => rfl
  | cons c w ih =>
    rw [runFree_cons_of_neg k c w (hw c (List.mem_cons_self c w))]
    exact ih (fun d hd => hw d (List.mem_cons_of_mem c hd)) 0

theorem endRun_of_no_tick (w : List Char) (hw : ∀ c ∈ w, c ≠ '`') (hne : w ≠ [])
    (k : Nat) : endRun k w = 0 := by
  induction w generalizing k with
  | nil => exact absurd rfl hne
  | cons c w ih =>
    rw [endRun_cons_of_neg k c w (hw c (List.mem_cons_self c w))]
    cases w with
    | nil => rfl
    | cons d w2 =>
      exact ih (fun d hd => hw d (List.mem_cons_of_mem c hd)) (by simp) 0

theorem hexDigitChar_ne_tick (m : Nat) (h : m < 16) : hexDigitChar m ≠ '`' := by
  interval_cases m <;> decide

theorem encodeJsonChar_tick : encodeJsonChar '`' = ['`'] := by decide

theorem encodeJsonChar_ne_nil (c : Char) : encodeJsonChar c ≠ [] := by
  unfold encodeJsonChar
  split
  · simp
  · split
    · simp
    · split <;> simp

theorem encodeJsonChar_no_tick (c : Char) (hc : c ≠ '`') :
    ∀ d ∈ encodeJsonChar c, d ≠ '`' := by
  intro d hd
  unfold encodeJsonChar at hd
  by_cases h1 : c = '"'
  · rw [if_pos h1] at hd
    simp only [List.mem_cons, List.not_mem_nil, or_false] at hd
    rcases hd with h | h <;> (subst h; decide)
  · rw [if_neg h1] at hd
    by_cases h2 : c = '\\'
    · rw [if_pos h2] at hd
      simp only [List.mem_cons, List.not_mem_nil, or_false] at hd
      rcases hd with h | h <;> (subst h; decide)
    · rw [if_neg h2] at hd
      by_cases h3 : c.toNat < 0x20
      · rw [if_pos h3] at hd
        simp only [List.mem_cons, List.not_mem_nil, or_false] at hd
        rcases hd with h | h | h | h | h | h
        · subst h; decide
        · subst h; decide
        · subst h; decide
        · subst h; decide
        · subst h; exact hexDigitChar_ne_tick _ (by omega)
        · subst h; exact hexDigitChar_ne_tick _ (by omega)
      · rw [if_neg h3] at hd
        simp only [List.mem_cons, List.not_mem_nil, or_false] at hd
        subst hd
        exact hc

/-- The encoder neither creates nor destroys backtick runs. -/
theorem runFree_cons_tick_stop (k : Nat) (t : List Char) (h3 : 3 ≤ k + 1) :
    runFree k ('`' :: t) = false := by
  rw [runFree]
  simp [h3]

theorem runFree_cons_tick_go (k : Nat) (t : List Char) (h3 : ¬ 3 ≤ k + 1) :
    runFree k ('`' :: t) = runFree (k + 1) t := by
  rw [runFree]
  simp [h3]

/-- The encoder neither creates nor destroys backtick runs. -/
theorem runFree_flatMap_encode (cs : List Char) :
    ∀ k, runFree k (cs.flatMap encodeJsonChar) = runFree k cs := by
  induction cs with
  | nil => intro k; rfl
  | cons c t ih =>
    intro k
    by_cases hc : c = '`'
    · subst hc
      rw [List.flatMap_cons, encodeJsonChar_tick, List.singleton_append]
      by_cases h3 : 3 ≤ k + 1
      · rw [runFree_cons_tick_stop k _ h3, runFree_cons_tick_stop k _ h3]
      · rw [runFree_cons_tick_go k _ h3, runFree_cons_tick_go k _ h3, ih]
    · rw [List.flatMap_cons, runFree_append,
        runFree_of_no_tick _ (encodeJsonChar_no_tick c hc),
        endRun_of_no_tick _ (encodeJsonChar_no_tick c hc) (encodeJsonChar_ne_nil c),
        runFree_cons_of_neg k c t hc, ih 0]
      simp

/-- A failed run check pinpoints a triple backtick in the text (with the
incoming run prepended). -/
theorem runFree_false_infix (cs : List Char) :
    ∀ k, runFree k cs = false →
    ['`', '`', '`'] <:+: (List.replicate k '`' ++ cs) := by
  induction cs with
  | nil => intro k h; simp [runFree] at h
  | cons c t ih =>
    intro k h
    by_cases hc : c = '`'
    · subst hc
      by_cases h3 : 3 ≤ k + 1
      · refine ⟨List.replicate (k - 2) '`', t, ?_⟩
        have h1 : List.replicate k '`' ++ '`' :: t = List.replicate (k + 1) '`' ++ t := by
          rw [List.replicate_succ']
          simp
        have h2 : List.replicate (k + 1) '`'
            = List.replicate (k - 2) '`' ++ List.replicate 3 '`' := by
          rw [← List.replicate_add]
          congr 1
          omega
        have h4 : (List.replicate 3 '`' : List Char) = ['`', '`', '`'] := rfl
        rw [h1, h2, h4, List.append_assoc]
      · have ht : runFree (k + 1) t = false := by
          rw [runFree, if_pos rfl, if_neg h3] at h
          exact h
        have := ih (k + 1) ht
        rwa [List.replicate_succ', List.append_assoc, List.singleton_append] at this
    · have ht : runFree 0 t = false := by
        rwa [runFree_cons_of_neg k c t hc] at h
      obtain ⟨u, v, huv⟩ := ih 0 ht
      simp only [List.replicate_zero, List.nil_append] at huv
      exact ⟨List.replicate k '`' ++ c :: u, v, by rw [← huv]; simp⟩

/-- A text with no `` ``` `` substring passes the run check. -/
theorem runFree_of_not_infix (cs : List Char) (h : ¬ ['`', '`', '`'] <:+: cs) :
    runFree 0 cs = true := by
  by_contra hf
  refine h ?_
  have := runFree_false_infix cs 0 (by
    cases hr : runFree 0 cs
    · rfl
    · exact absurd hr hf)
  simpa using this

theorem endRun_append (a : List Char) :
    ∀ (k : Nat) (b : List Char), endRun k (a ++ b) = endRun (endRun k a) b := by
  induction a with
  | nil => intro k b; rfl
  | cons c a ih =>
    intro k b
    by_cases hc : c = '`'
    · subst hc
      simp only [List.cons_append, endRun, if_pos rfl]
      exact ih (k + 1) b
    · simp only [List.cons_append, endRun_cons_of_neg _ _ _ hc,
        endRun_cons_of_neg _ c (a ++ b) hc]
      exact ih 0 b

theorem runFree_encodeString_eq (s : String) :
    runFree 0 (encodeJsonString s) = runFree 0 s.data := by
  have hsh : encodeJsonString s = '"' :: (s.data.flatMap encodeJsonChar ++ ['"']) := rfl
  rw [hsh, runFree_cons_of_neg _ _ _ (by decide), runFree_append, runFree_flatMap_encode,
    runFree_of_no_tick ['"'] (by decide) _]
  simp

theorem endRun_encodeString (s : String) : endRun 0 (encodeJsonString s) = 0 := by
  have hsh : encodeJsonString s = '"' :: (s.data.flatMap encodeJsonChar ++ ['"']) := rfl
  rw [hsh, endRun_cons_of_neg _ _ _ (by decide), endRun_append]
  exact endRun_of_no_tick ['"'] (by decide) (by simp) _

/-- The encoded elements of fence-free strings are fence-free. -/
theorem runFree_commaSep_encode (l : List String)
    (h : ∀ s ∈ l, runFree 0 s.data = true) :
    runFree 0 (commaSep (l.map encodeJsonString)) = true := by
  induction l with
  | nil => rfl
  | cons s t ih =>
    cases t with
    | nil =>
      rw [show commaSep ([s].map encodeJsonString) = encodeJsonString s from rfl,
        runFree_encodeString_eq]
      exact h s (List.mem_cons_self _ _)
    | cons s2 t2 =>
      have hsh : commaSep ((s :: s2 :: t2).map encodeJsonString)
          = encodeJsonString s
              ++ ',' :: ' ' :: commaSep ((s2 :: t2).map encodeJsonString) := by
        simp [commaSep]
      rw [hsh, runFree_append, runFree_encodeString_eq, endRun_encodeString,
        runFree_cons_of_neg _ _ _ (by decide), runFree_cons_of_neg _ _ _ (by decide),
        ih (fun x hx => h x (List.mem_cons_of_mem _ hx)), h s (List.mem_cons_self _ _)]
      rfl

/-- The encoded array of fence-free strings is fence-free. -/
theorem runFree_encodeArray (l : List String)
    (h : ∀ s ∈ l, runFree 0 s.data = true) :
    runFree 0 (encodeJsonArray l) = true := by
  have hsh : encodeJsonArray l = '[' :: (commaSep (l.map encodeJsonString) ++ [']']) := rfl
  rw [hsh, runFree_cons_of_neg _ _ _ (by decide), runFree_append,
    runFree_commaSep_encode l h, runFree_of_no_tick [']'] (by decide) _]
  rfl

theorem firstOccur_of_prefix (sub hay : List Char) (h : sub.isPrefixOf hay = true) :
    firstOccur sub hay = some 0 := by
  cases hay with
  | nil =>
    cases sub with
    | nil => rfl
    | cons c t => simp [List.isPrefixOf] at h
  | cons c t => simp [firstOccur, h]

theorem firstOccur_cons_of_not_prefix (sub : List Char) (c : Char) (t : List Char)
    (h : sub.isPrefixOf (c :: t) = false) :
    firstOccur sub (c :: t) = (firstOccur sub t).map (· + 1) := by
  rw [firstOccur]
  simp [h]

/-- After a run-free prefix, the first closing fence found is the real
one, just past the newline. -/
theorem firstOccur_ticks_fence (cs : List Char) :
    ∀ k, k ≤ 2 → runFree k cs = true →
    firstOccur ['`', '`', '`'] (cs ++ '\n' :: '`' :: '`' :: '`' :: [])
      = some (cs.length + 1) := by
  induction cs with
  | nil => intro k _ _; decide
  | cons c t ih =>
    intro k hk h
    by_cases hc : c = '`'
    · subst hc
      have h3 : ¬ 3 ≤ k + 1 := by
        intro h5
        rw [runFree_cons_tick_stop _ _ h5] at h
        cases h
      have ht : runFree (k + 1) t = true := by
        rwa [runFree_cons_tick_go _ _ h3] at h
      have hnp : (['`', '`', '`'] : List Char).isPrefixOf
          ('`' :: (t ++ '\n' :: '`' :: '`' :: '`' :: [])) = false := by
        cases t with
        | nil => decide
        | cons c2 t2 =>
          by_cases hc2 : c2 = '`'
          · subst hc2
            cases t2 with
            | nil => decide
            | cons c3 t3 =>
              by_cases hc3 : c3 = '`'
              · exfalso
                subst hc3
                have hstop : runFree (k + 1) ('`' :: '`' :: t3) = false := by
                  by_cases h5 : 3 ≤ (k + 1) + 1
                  · exact runFree_cons_tick_stop _ _ h5
                  · rw [runFree_cons_tick_go _ _ h5]
                    exact runFree_cons_tick_stop _ _ (by omega)
                rw [hstop] at ht
                cases ht
              · simp only [List.cons_append, List.isPrefixOf, Bool.and_eq_false_iff]
                right; right; left
                exact beq_eq_false_iff_ne.mpr (fun e => hc3 e.symm)
          · simp only [List.cons_append, List.isPrefixOf, Bool.and_eq_false_iff]
            right; left
            exact beq_eq_false_iff_ne.mpr (fun e => hc2 e.symm)
      rw [List.cons_append, firstOccur, if_neg (by rw [hnp]; exact Bool.false_ne_true),
        ih (k + 1) (by omega) ht]
      simp
    · have ht : runFree 0 t = true := by
        rwa [runFree_cons_of_neg _ _ _ hc] at h
      have hnp : (['`', '`', '`'] : List Char).isPrefixOf
          (c :: (t ++ '\n' :: '`' :: '`' :: '`' :: [])) = false := by
        simp only [List.cons_append, List.isPrefixOf, Bool.and_eq_false_iff]
        left
        exact beq_eq_false_iff_ne.mpr (fun e => hc e.symm)
      rw [List.cons_append, firstOccur, if_neg (by rw [hnp]; exact Bool.false_ne_true),
        ih 0 (by omega) ht]
      simp

/-! ### Round trip, part 4: extracting the fenced block, and the claim -/

theorem fencedJsonBlock_data_cons (l : List String) :
    (fencedJsonBlock l).data
      = '`' :: '`' :: '`' :: 'j' :: 's' :: 'o' :: 'n' :: '\n'
          :: (encodeJsonArray l ++ '\n' :: '`' :: '`' :: '`' :: []) := rfl

theorem pySlice_nat (cs : List Char) (a b : Nat) :
    pySlice cs a ((b : Nat) : Int) = (cs.take (min b cs.length)).drop a := by
  unfold pySlice
  rw [if_neg (by omega : ¬ ((b : Nat) : Int) < 0)]
  rw [Int.toNat_ofNat]

theorem pyStrip_wrap (m : List Char) (c d : Char)
    (hc : isPyWs c = false) (hd : isPyWs d = false) :
    pyStrip ('\n' :: ((c :: (m ++ [d])) ++ ['\n'])) = c :: (m ++ [d]) := by
  unfold pyStrip
  rw [List.dropWhile_cons, if_pos (by decide : isPyWs '\n' = true), List.cons_append,
    List.dropWhile_cons, if_neg (by rw [hc]; exact Bool.false_ne_true)]
  simp only [List.reverse_cons, List.reverse_append, List.reverse_nil, List.nil_append,
    List.singleton_append, List.cons_append, List.append_assoc]
  rw [List.dropWhile_cons, if_pos (by decide : isPyWs '\n' = true),
    List.dropWhile_cons, if_neg (by rw [hd]; exact Bool.false_ne_true)]
  simp [List.reverse_cons, List.reverse_append]

/-- The fence extraction recovers exactly the encoded array from the
fenced block, provided no element contains `` ``` ``. -/
theorem extractCandidate_fencedJsonBlock (l : List String)
    (h : ∀ s ∈ l, ¬ (['`', '`', '`'] <:+: s.data)) :
    extractCandidate (fencedJsonBlock l).data = encodeJsonArray l := by
  have hD : runFree 0 (encodeJsonArray l) = true :=
    runFree_encodeArray l (fun s hs => runFree_of_not_infix _ (h s hs))
  have hfo1 : firstOccur "```json".data (fencedJsonBlock l).data = some 0 := by
    apply firstOccur_of_prefix
    rw [fencedJsonBlock_data_cons,
      show "```json".data = ['`', '`', '`', 'j', 's', 'o', 'n'] from rfl]
    simp [List.isPrefixOf]
  have hdrop : (fencedJsonBlock l).data.drop 7
      = '\n' :: (encodeJsonArray l ++ '\n' :: '`' :: '`' :: '`' :: []) := by
    rw [fencedJsonBlock_data_cons]
    rfl
  have hlen : (fencedJsonBlock l).data.length = (encodeJsonArray l).length + 12 := by
    rw [fencedJsonBlock_data_cons]
    simp only [List.length_cons, List.length_append]
    simp
  have hfo2 : pyFindFrom (fencedJsonBlock l).data "```".data 7
      = some ((encodeJsonArray l).length + 9) := by
    unfold pyFindFrom
    rw [hdrop, show "```".data = ['`', '`', '`'] from rfl, firstOccur,
      if_neg (by simp [List.isPrefixOf]),
      firstOccur_ticks_fence (encodeJsonArray l) 0 (by omega) hD]
    simp only [Option.map_map, Option.map_some]
    simp
  have hslice : pySlice (fencedJsonBlock l).data 7
        ((((encodeJsonArray l).length + 9 : Nat) : Int))
      = '\n' :: (encodeJsonArray l ++ ['\n']) := by
    rw [pySlice_nat, hlen, min_eq_left (by omega)]
    have hP : (fencedJsonBlock l).data
        = "```json\n".data ++ (encodeJsonArray l ++ '\n' :: '`' :: '`' :: '`' :: []) := rfl
    have hPlen : ("```json\n".data).length = 8 := rfl
    rw [hP, List.take_append_eq_append_take, List.take_of_length_le (by rw [hPlen]; omega),
      hPlen, show (encodeJsonArray l).length + 9 - 8 = (encodeJsonArray l).length + 1 from by omega,
      List.take_append_eq_append_take, List.take_of_length_le (by omega),
      show (encodeJsonArray l).length + 1 - (encodeJsonArray l).length = 1 from by omega,
      show ('\n' :: '`' :: '`' :: '`' :: []).take 1 = ['\n'] from rfl,
      List.drop_append_of_le_length (by rw [hPlen]; omega),
      show ("```json\n".data).drop 7 = ['\n'] from rfl,
      List.singleton_append]
  simp only [extractCandidate, hfo1, Nat.zero_add, hfo2, hslice]
  rw [show encodeJsonArray l = '[' :: (commaSep (l.map encodeJsonString) ++ [']']) from rfl]
  exact pyStrip_wrap _ _ _ (by decide) (by decide)

/-- **C1, counterexample** — The round trip fails when a string contains
` ``` `: the closing-fence search stops inside the encoded element, the
truncated candidate no longer parses, and the fallback returns something
else entirely. -/
theorem fenced_round_trip_backtick_counterexample :
    (["x```y"] : List String).Nodup
    ∧ normalizeResponse (fencedJsonBlock ["x```y"]) ≠ ["x```y"].map Json.str
    ∧ normalizeResponse (fencedJsonBlock ["x```y"]) = [Json.str "[\"x"] := by
  refine ⟨by decide, by decide, by decide⟩

/-- **C1, amended** — For every list of distinct strings none of which
contains the closing-fence marker ` ``` `, encoding the list as a JSON
array inside a ```json fenced block and normalizing yields back exactly
the same strings in the same order. -/
theorem fenced_round_trip_without_triple_backtick (l : List String)
    (_hnd : l.Nodup) (h : ∀ s ∈ l, ¬ (['`', '`', '`'] <:+: s.data)) :
    normalizeResponse (fencedJsonBlock l) = l.map Json.str := by
  apply normalize_of_parse_arr
  rw [extractCandidate_fencedJsonBlock l h, parseJsonChars_encodeArray]

/-- Witness for the amended C1 at a concrete two-string list. -/
theorem fenced_round_trip_without_triple_backtick_witness :
    normalizeResponse (fencedJsonBlock ["sunset beach", "golden tide"])
      = [Json.str "sunset beach", Json.str "golden tide"] :=
  fenced_round_trip_without_triple_backtick _ (by decide) (by decide)

end PG
